import Mathlib

/-!
Shallow embedding of `mi_app_tickets.py` (a Flask ticket issuance and
redemption service) and proofs of the specification's claims about it.

Strings are modelled as Lean `String`; the Python inputs of interest are
ASCII, so `str.strip` is modelled as removal of ASCII whitespace. The SQLite
table `tickets` is modelled as a `List Ticket`; the primary-key-respecting
`INSERT ... ON CONFLICT DO NOTHING` and the conditional
`UPDATE ... WHERE ticket_id = ? AND usado = 0` are modelled as list
operations with the same semantics. The HMAC-SHA256/base64 primitive is out
of scope (a black box per the spec) and appears as a function parameter.
-/

namespace Tickets

/-- ASCII whitespace characters removed by Python `str.strip()` (the inputs
in this development are ASCII; Unicode whitespace is not modelled). -/
def is_py_space (c : Char) : Bool :=
  c = ' ' || c = '\t' || c = '\n' || c = '\r' || c = '\x0b' || c = '\x0c'

/-- Remove leading and trailing whitespace from a character list. -/
def stripList (xs : List Char) : List Char :=
  ((xs.dropWhile is_py_space).reverse.dropWhile is_py_space).reverse

/-- Python `str.strip()` on the modelled ASCII inputs. -/
def pyStrip (s : String) : String := ⟨stripList s.data⟩

/-- Python `str.split(sep)` for a single-character separator: splits on every
occurrence of `sep`, keeping empty segments, and never returns `[]`. -/
def splitOnChar (sep : Char) : List Char → List (List Char)
  | [] => [[]]
  | c :: cs =>
    match splitOnChar sep cs with
    | [] => [[]]
    | p :: ps => if c = sep then [] :: p :: ps else (c :: p) :: ps

/-- Python `str.startswith(p)`. -/
def startsWithList (p s : List Char) : Bool := p.isPrefixOf s

/-- Python `str.endswith` for a one-character suffix. -/
def endsWithChar (c : Char) (s : List Char) : Bool := s.getLast? = some c

/-- Lines 145-157 of `mi_app_tickets.py`: the identifier normalisation done
at the start of `verificar_ticket`.  Strips whitespace; if the result starts
with a URL scheme, removes a trailing slash, keeps the final path segment
(the part after the last `/`), and discards everything from the first `?`. -/
def normalize_id (raw : String) : String :=
  let tid := stripList raw.data
  if startsWithList "http://".data tid || startsWithList "https://".data tid then
    let tid2 := if endsWithChar '/' tid then tid.dropLast else tid
    let seg := (splitOnChar '/' tid2).getLastD []
    let seg2 := if seg.contains '?' then (splitOnChar '?' seg).headD [] else seg
    ⟨seg2⟩
  else ⟨tid⟩

/-- A row of the SQLite `tickets` table (lines 55-62). `mensaje_verificacion`
is never written or read by the code and is omitted. -/
structure Ticket where
  ticket_id : String
  evento_sku : String
  cliente_email : Option String
  orden_id : String
  usado : Bool
deriving DecidableEq

/-- `SELECT 1 FROM tickets WHERE ticket_id = ?` (existence). -/
def hasId (store : List Ticket) (i : String) : Bool :=
  store.any (fun t => t.ticket_id = i)

/-- `SELECT * FROM tickets WHERE ticket_id = ?` + `fetchone` (line 164). -/
def findTicket (store : List Ticket) (i : String) : Option Ticket :=
  store.find? (fun t => t.ticket_id = i)

/-- `INSERT ... ON CONFLICT(ticket_id) DO NOTHING` (lines 122-129): append
the row unless a row with the same primary key already exists. -/
def insert_ticket (store : List Ticket) (t : Ticket) : List Ticket :=
  if hasId store t.ticket_id then store else store ++ [t]

/-- Effect of `UPDATE tickets SET usado = 1 WHERE ticket_id = ? AND usado = 0`
(line 187). -/
def markUsed (store : List Ticket) (i : String) : List Ticket :=
  store.map (fun t => if t.ticket_id = i && !t.usado then { t with usado := true } else t)

/-- `cursor.rowcount` of that UPDATE: how many rows matched the condition. -/
def updateRowcount (store : List Ticket) (i : String) : Nat :=
  (store.filter (fun t => t.ticket_id = i && !t.usado)).length

/-- The JSON body returned by `verificar_ticket`. -/
structure Resultado where
  valido : Bool
  mensaje : String
deriving DecidableEq

def mensajeModoPrueba : String := "MODO PRUEBA: Ticket válido (Simulado)."

def mensajeDenegado : String := "ACCESO DENEGADO: Ticket inválido o no existe."

def mensajeYaUsado (sku : String) : String :=
  "ALERTA: Este ticket (SKU: " ++ sku ++ ") YA FUE USADO."

def mensajePermitido (sku : String) : String :=
  "ACCESO PERMITIDO: Ticket válido (SKU: " ++ sku ++ ")."

/-- Lines 142-201: the `/verificar_ticket/<ticket_id>` handler, as executed
sequentially by one request.  Returns the store after the request together
with the JSON result.  The commit on line 188 makes the conditional update
durable; interleaving of several concurrent requests is modelled separately
by `raceStep` below. -/
def verificar_ticket (store : List Ticket) (raw : String) : List Ticket × Resultado :=
  let tid := normalize_id raw
  match findTicket store tid with
  | none =>
    if startsWithList "TEST".data tid.data then
      (store, ⟨true, mensajeModoPrueba⟩)
    else
      (store, ⟨false, mensajeDenegado⟩)
  | some ticket =>
    if ticket.usado then
      (store, ⟨false, mensajeYaUsado ticket.evento_sku⟩)
    else
      let store2 := markUsed store tid
      if updateRowcount store tid = 0 then
        (store2, ⟨false, mensajeYaUsado ticket.evento_sku⟩)
      else
        (store2, ⟨true, mensajePermitido ticket.evento_sku⟩)

/-- One entry of the JSON `line_items` array.  `sku` and `id` are absent or
strings (`item.get(...)` yields `None` when missing); `quantity` is `none`
when missing or not an integer, in which case `range(cantidad)` on line 119
raises. -/
structure LineItem where
  sku : Option String
  quantity : Option Int
  id : Option String
deriving DecidableEq

/-- The parsed webhook JSON body (`request.json`, line 101). -/
structure Pedido where
  email : Option String
  id : Option String
  line_items : List LineItem
deriving DecidableEq

/-- How a Python f-string renders an optional value: `None` prints as the
string `None`; this is also `str(orden_id)` on line 128. -/
def pyStrOpt : Option String → String
  | none => "None"
  | some s => s

/-- Python truthiness of `item.get('sku')` (line 116): `None` and the empty
string are falsy. -/
def truthyStr : Option String → Bool
  | none => false
  | some s => !(s = "")

/-- Line 120: `ticket_id = f"TICKET-{orden_id}-{item.get('id')}-{i+1}"`. -/
def derive_ticket_id (orden_id item_id : Option String) (unit : Nat) : String :=
  "TICKET-" ++ pyStrOpt orden_id ++ "-" ++ pyStrOpt item_id ++ "-" ++ toString unit

/-- The inner loop of lines 119-130: for `i in range(cantidad)` insert the
ticket for unit index `i+1`.  `range` of a non-positive integer is empty. -/
def insertUnits (orden_id : Option String) (email : Option String)
    (item_id : Option String) (sku : String) (q : Int)
    (store : List Ticket) : List Ticket :=
  (List.range q.toNat).foldl
    (fun st i =>
      insert_ticket st
        ⟨derive_ticket_id orden_id item_id (i + 1), sku, email, pyStrOpt orden_id, false⟩)
    store

/-- One iteration of the `for item in pedido.get('line_items', [])` loop
(lines 111-130).  `none` models the uncaught exception raised by
`range(cantidad)` when a line item has a truthy `sku` but no integer
`quantity`. -/
def process_item (orden_id email : Option String) (store : List Ticket)
    (item : LineItem) : Option (List Ticket) :=
  match item.sku with
  | none => some store
  | some s =>
    if s = "" then some store
    else
      match item.quantity with
      | none => none
      | some q => some (insertUnits orden_id email item.id s q store)

/-- The whole line-item loop: processes items left to right, stopping with
`none` at the first item that raises. -/
def process_items (orden_id email : Option String) :
    List LineItem → List Ticket → Option (List Ticket)
  | [], store => some store
  | item :: rest, store =>
    match process_item orden_id email store item with
    | none => none
    | some store2 => process_items orden_id email rest store2

/-- The three possible HTTP responses of the webhook endpoint:
`abort(401)` (line 99), the 500 `{"status": "error", "message": str(e)}`
body (line 136), and the 200 `{"status": "success"}` body (line 138). -/
inductive WebhookResp
  | unauthorized
  | err
  | success
deriving DecidableEq

/-- Lines 69-87: `verificar_webhook(data, hmac_header)`.  `hmacB64` stands
for the black-box `base64(HMAC-SHA256(secret, data))` primitive; `hmac_header`
is `None` when the `X-Shopify-Hmac-Sha256` header is absent.  Python's
`if not hmac_header` also rejects an empty header string, and
`hmac.compare_digest` is a (constant-time) equality test. -/
def verificar_webhook (hmacB64 : String → String → String) (secret : String)
    (data : String) (hmac_header : Option String) : Bool :=
  match hmac_header with
  | none => false
  | some h =>
    if h = "" then false
    else if secret = "" then false
    else hmacB64 secret data == h

/-- Lines 91-138: the `/shopify/webhook/orden_pagada` handler.  `pedido` is
what `request.json` parses out of `data` (parsing is external to the model).
On the exception path no `db.commit()` runs, and closing the connection at
request teardown rolls the uncommitted inserts back, so the durable store is
unchanged.  On success the single commit on line 132 publishes all inserts. -/
def webhook_orden_pagada (hmacB64 : String → String → String) (secret : String)
    (data : String) (hmac_header : Option String) (pedido : Pedido)
    (store : List Ticket) : List Ticket × WebhookResp :=
  if !verificar_webhook hmacB64 secret data hmac_header then
    (store, .unauthorized)
  else
    match process_items pedido.id pedido.email pedido.line_items store with
    | none => (store, .err)
    | some store2 => (store2, .success)

/-!
Interleaving model of N concurrent `verificar_ticket` requests against one
ticket that exists in the store.  Per request the handler touches the
database twice: the SELECT on line 164, and the conditional UPDATE + commit
on lines 187-188.  Each touch is one atomic action of the store (§5 of the
spec: the store serialises conflicting operations); between the two touches
of one request, any number of actions of other requests may run.  The
shared state is the ticket's `usado` flag (the UPDATE changes nothing else);
each caller's local state records how far its handler has run.
-/

/-- Local state of one in-flight `verificar_ticket` request. -/
inductive CallerState
  /-- has not yet executed the SELECT of line 164 -/
  | pending
  /-- the SELECT returned the ticket with `usado = 0`; the handler is
  between line 180 and the UPDATE of line 187 -/
  | sawUnused
  /-- the handler returned this JSON body -/
  | done (r : Resultado)
deriving DecidableEq

/-- Global state of the race: the ticket's `usado` flag plus every caller's
local state (caller `i` is entry `i` of the list). -/
structure RaceConfig where
  usado : Bool
  callers : List CallerState
deriving DecidableEq

/-- An atomic store action of caller `i`: its SELECT or its conditional
UPDATE. -/
inductive RaceAction
  | select (i : Nat)
  | update (i : Nat)

/-- The SELECT of line 164 run by caller `i` (a no-op unless the caller is
at that point of its handler).  The ticket exists throughout, so the
`not ticket` branch is unreachable; if the snapshot shows `usado`, lines
180-184 finish the request with the "already used" body, otherwise the
handler proceeds towards its UPDATE. -/
def stepSelect (sku : String) (cfg : RaceConfig) (i : Nat) : RaceConfig :=
  match cfg.callers.get? i with
  | some .pending =>
    if cfg.usado then
      { cfg with callers := cfg.callers.set i (.done ⟨false, mensajeYaUsado sku⟩) }
    else
      { cfg with callers := cfg.callers.set i .sawUnused }
  | _ => cfg

/-- The conditional UPDATE + commit of lines 187-194 run by caller `i` as a
single atomic action: `usado` goes `false → true` only if it is currently
`false`, in which case the caller wins (lines 198-201); a zero rowcount
(lines 190-194) yields the "already used" body. -/
def stepUpdate (sku : String) (cfg : RaceConfig) (i : Nat) : RaceConfig :=
  match cfg.callers.get? i with
  | some .sawUnused =>
    if cfg.usado then
      { cfg with callers := cfg.callers.set i (.done ⟨false, mensajeYaUsado sku⟩) }
    else
      { usado := true,
        callers := cfg.callers.set i (.done ⟨true, mensajePermitido sku⟩) }
  | _ => cfg

def raceStep (sku : String) (cfg : RaceConfig) : RaceAction → RaceConfig
  | .select i => stepSelect sku cfg i
  | .update i => stepUpdate sku cfg i

/-- Run a whole interleaving (any sequence of atomic actions). -/
def raceRun (sku : String) (cfg : RaceConfig) (acts : List RaceAction) : RaceConfig :=
  acts.foldl (raceStep sku) cfg

/-- Initial state: the ticket is unused and `n` redemption requests for its
identifier are about to run. -/
def raceInit (n : Nat) : RaceConfig :=
  ⟨false, List.replicate n .pending⟩

/-- Did this caller finish its request? -/
def isDone : CallerState → Bool
  | .done _ => true
  | _ => false

/-- Did this caller finish with `valido = true`? -/
def isValidDone : CallerState → Bool
  | .done r => r.valido
  | _ => false

/-- Number of callers that got `valido = true`. -/
def countValid (callers : List CallerState) : Nat :=
  (callers.filter isValidDone).length

/-- Invariant of the race: the number of winners equals 1 exactly when the
flag has been consumed; while the flag is still `false` nobody has finished;
and every finished caller holds one of the two possible JSON bodies. -/
def RaceInv (sku : String) (cfg : RaceConfig) : Prop :=
  countValid cfg.callers = (if cfg.usado then 1 else 0) ∧
  (cfg.usado = false → ∀ c ∈ cfg.callers, c = .pending ∨ c = .sawUnused) ∧
  (∀ c ∈ cfg.callers,
    c = .pending ∨ c = .sawUnused ∨
    c = .done ⟨true, mensajePermitido sku⟩ ∨ c = .done ⟨false, mensajeYaUsado sku⟩)

/-- `out` extends `s` by pure insertions: the original rows survive in
place (as a prefix) and every row not already in `s` carries an identifier
that was absent from `s` and the initial `usado = false`.  This is what
"durable writes only for newly created identifiers" amounts to on the
modelled store. -/
def ExtendsFresh (s out : List Ticket) : Prop :=
  s <+: out ∧ ∀ t ∈ out, t ∈ s ∨ (hasId s t.ticket_id = false ∧ t.usado = false)

lemma filterLen_set (p : α → Bool) :
    ∀ (l : List α) (i : Nat) (a b : α), l.get? i = some a →
      ((l.set i b).filter p).length + (if p a then 1 else 0)
        = (l.filter p).length + (if p b then 1 else 0) := by
  intro l
  induction l with
  | nil => intro i a b h; simp at h
  | cons x xs ih =>
    intro i a b h
    cases i with
    | zero =>
      have ha : x = a := by simpa using h
      subst ha
      simp only [List.set, List.filter_cons]
      by_cases hpa : p x <;> by_cases hpb : p b <;> simp [hpa, hpb]
    | succ j =>
      simp only [List.get?] at h
      simp only [List.set, List.filter_cons]
      have := ih j a b h
      by_cases hpx : p x <;> simp [hpx] <;> omega

lemma countValid_set_same (callers : List CallerState) (i : Nat) (c c' : CallerState)
    (hg : callers.get? i = some c) (h : isValidDone c = isValidDone c') :
    countValid (callers.set i c') = countValid callers := by
  have hlen := filterLen_set isValidDone callers i c c' hg
  rw [h] at hlen
  exact Nat.add_right_cancel hlen

lemma countValid_set_win (callers : List CallerState) (i : Nat) (c c' : CallerState)
    (hg : callers.get? i = some c) (hc : isValidDone c = false)
    (hc' : isValidDone c' = true) :
    countValid (callers.set i c') = countValid callers + 1 := by
  have hlen := filterLen_set isValidDone callers i c c' hg
  rw [hc, hc'] at hlen
  simp at hlen
  unfold countValid
  omega

lemma raceInv_init (sku : String) (n : Nat) : RaceInv sku (raceInit n) := by
  refine ⟨?_, ?_, ?_⟩
  · show countValid (List.replicate n .pending) = _
    induction n with
    | zero => simp [countValid, raceInit]
    | succ m ih =>
      simpa [countValid, List.replicate, List.filter, isValidDone] using ih
  · intro _ c hc
    left
    exact (List.eq_of_mem_replicate hc)
  · intro c hc
    left
    exact (List.eq_of_mem_replicate hc)

lemma raceInv_step (sku : String) (cfg : RaceConfig) (a : RaceAction)
    (h : RaceInv sku cfg) : RaceInv sku (raceStep sku cfg a) := by
  obtain ⟨h1, h2, h3⟩ := h
  have hmem : ∀ (i : Nat) (x c : CallerState), c ∈ cfg.callers.set i x →
      c = x ∨ c ∈ cfg.callers := by
    intro i x c hc
    rcases List.mem_or_eq_of_mem_set hc with h' | h'
    · exact Or.inr h'
    · exact Or.inl h'
  cases a with
  | select i =>
    show RaceInv sku (stepSelect sku cfg i)
    unfold stepSelect
    split
    case _ heq =>
      split
      case isTrue hu =>
        refine ⟨?_, ?_, ?_⟩
        · simpa [hu] using
            (countValid_set_same cfg.callers i _ _ heq (by simp [isValidDone])).trans
              (h1.trans (by simp [hu]))
        · intro hfalse; simp [hu] at hfalse
        · intro c hc
          rcases hmem i _ c hc with rfl | hc'
          · exact Or.inr (Or.inr (Or.inr rfl))
          · exact h3 c hc'
      case isFalse hu =>
        have hu' : cfg.usado = false := by
          revert hu; cases cfg.usado <;> simp
        refine ⟨?_, ?_, ?_⟩
        · simpa [hu'] using
            (countValid_set_same cfg.callers i _ _ heq (by simp [isValidDone])).trans
              (h1.trans (by simp [hu']))
        · intro _ c hc
          rcases hmem i _ c hc with rfl | hc'
          · exact Or.inr rfl
          · exact h2 hu' c hc'
        · intro c hc
          rcases hmem i _ c hc with rfl | hc'
          · exact Or.inr (Or.inl rfl)
          · exact h3 c hc'
    case _ =>
      exact ⟨h1, h2, h3⟩
  | update i =>
    show RaceInv sku (stepUpdate sku cfg i)
    unfold stepUpdate
    split
    case _ heq =>
      split
      case isTrue hu =>
        refine ⟨?_, ?_, ?_⟩
        · simpa [hu] using
            (countValid_set_same cfg.callers i _ _ heq (by simp [isValidDone])).trans
              (h1.trans (by simp [hu]))
        · intro hfalse; simp [hu] at hfalse
        · intro c hc
          rcases hmem i _ c hc with rfl | hc'
          · exact Or.inr (Or.inr (Or.inr rfl))
          · exact h3 c hc'
      case isFalse hu =>
        have hu' : cfg.usado = false := by
          revert hu; cases cfg.usado <;> simp
        refine ⟨?_, ?_, ?_⟩
        · show countValid (cfg.callers.set i _) = _
          rw [countValid_set_win cfg.callers i _ _ heq (by simp [isValidDone])
              (by simp [isValidDone])]
          simp [h1, hu']
        · intro hfalse; simp at hfalse
        · intro c hc
          rcases hmem i _ c hc with rfl | hc'
          · exact Or.inr (Or.inr (Or.inl rfl))
          · exact h3 c hc'
    case _ =>
      exact ⟨h1, h2, h3⟩

lemma raceInv_run (sku : String) (cfg : RaceConfig) (acts : List RaceAction)
    (h : RaceInv sku cfg) : RaceInv sku (raceRun sku cfg acts) := by
  induction acts generalizing cfg with
  | nil => exact h
  | cons a rest ih => exact ih _ (raceInv_step sku cfg a h)

lemma raceRun_length (sku : String) (cfg : RaceConfig) (acts : List RaceAction) :
    (raceRun sku cfg acts).callers.length = cfg.callers.length := by
  induction acts generalizing cfg with
  | nil => rfl
  | cons a rest ih =>
    refine (ih _).trans ?_
    cases a with
    | select i =>
      show (stepSelect sku cfg i).callers.length = _
      unfold stepSelect
      split
      · split <;> simp
      · rfl
    | update i =>
      show (stepUpdate sku cfg i).callers.length = _
      unfold stepUpdate
      split
      · split <;> simp
      · rfl

/-- C1: for every unused ticket in the store and any number `n ≥ 1` of
simultaneous redemption calls for its identifier, under every interleaving
of the callers' atomic store actions in which all callers finish, exactly
one caller returns `valido = true` with the "ACCESO PERMITIDO" message and
every other caller returns `valido = false` with the "YA FUE USADO"
message; moreover the SELECT never writes the flag, and the consume
transition is the single atomic action `stepUpdate`, which flips
`usado : false → true` precisely when `usado` is currently `false` (the
caller then winning) and otherwise leaves the flag alone (the caller
losing), never as a separate read-then-write. -/
theorem C1_exactly_once_redemption (sku : String) (n : Nat) (acts : List RaceAction)
    (hn : 1 ≤ n)
    (hdone : ∀ c ∈ (raceRun sku (raceInit n) acts).callers, isDone c = true) :
    countValid (raceRun sku (raceInit n) acts).callers = 1 ∧
    (∀ c ∈ (raceRun sku (raceInit n) acts).callers,
      c = .done ⟨true, mensajePermitido sku⟩ ∨ c = .done ⟨false, mensajeYaUsado sku⟩) ∧
    (∀ (cfg : RaceConfig) (i : Nat), (stepSelect sku cfg i).usado = cfg.usado) ∧
    (∀ (cfg : RaceConfig) (i : Nat), cfg.callers.get? i = some .sawUnused →
      (cfg.usado = false →
        stepUpdate sku cfg i =
          ⟨true, cfg.callers.set i (.done ⟨true, mensajePermitido sku⟩)⟩) ∧
      (cfg.usado = true →
        stepUpdate sku cfg i =
          ⟨true, cfg.callers.set i (.done ⟨false, mensajeYaUsado sku⟩)⟩)) := by
  obtain ⟨h1, h2, h3⟩ := raceInv_run sku (raceInit n) acts (raceInv_init sku n)
  have hlen : (raceRun sku (raceInit n) acts).callers.length = n := by
    simpa [raceInit] using raceRun_length sku (raceInit n) acts
  have husado : (raceRun sku (raceInit n) acts).usado = true := by
    by_contra hfalse
    have hu : (raceRun sku (raceInit n) acts).usado = false := by
      revert hfalse; cases (raceRun sku (raceInit n) acts).usado <;> simp
    have hne : (raceRun sku (raceInit n) acts).callers ≠ [] := by
      intro hnil
      rw [hnil] at hlen
      simp at hlen
      omega
    obtain ⟨c, hc⟩ := List.exists_mem_of_ne_nil _ hne
    rcases h2 hu c hc with rfl | rfl
    · simpa [isDone] using hdone _ hc
    · simpa [isDone] using hdone _ hc
  refine ⟨by rw [husado] at h1; simpa using h1, ?_, ?_, ?_⟩
  · intro c hc
    rcases h3 c hc with rfl | rfl | rfl | rfl
    · simpa [isDone] using hdone _ hc
    · simpa [isDone] using hdone _ hc
    · exact Or.inl rfl
    · exact Or.inr rfl
  · intro cfg i
    unfold stepSelect
    split
    · split <;> rfl
    · rfl
  · intro cfg i hget
    rw [List.get?_eq_getElem?] at hget
    constructor
    · intro hu
      simp [stepUpdate, hget, hu]
    · intro hu
      simp [stepUpdate, hget, hu]

/-- Witness for C1: two concurrent redeemers whose SELECTs both run before
either UPDATE (the classic race window); exactly one wins. -/
theorem C1_witness :
    countValid (raceRun "EVT1" (raceInit 2)
      [.select 0, .select 1, .update 0, .update 1]).callers = 1 :=
  (C1_exactly_once_redemption "EVT1" 2 [.select 0, .select 1, .update 0, .update 1]
    (by decide) (by decide)).1

lemma mem_markUsed_of_used {t : Ticket} {store : List Ticket} (i : String)
    (h : t ∈ store) (hu : t.usado = true) : t ∈ markUsed store i := by
  have : (fun x : Ticket =>
      if x.ticket_id = i && !x.usado then { x with usado := true } else x) t = t := by
    simp [hu]
  unfold markUsed
  exact this ▸ List.mem_map_of_mem _ h

lemma mem_insert_ticket {t : Ticket} {store : List Ticket} (x : Ticket)
    (h : t ∈ store) : t ∈ insert_ticket store x := by
  unfold insert_ticket
  split
  · exact h
  · exact List.mem_append_left _ h

lemma mem_insertUnits {t : Ticket} {store : List Ticket}
    (oid em iid : Option String) (sku : String) (q : Int)
    (h : t ∈ store) : t ∈ insertUnits oid em iid sku q store := by
  unfold insertUnits
  generalize List.range q.toNat = l
  induction l generalizing store with
  | nil => exact h
  | cons a as ih => exact ih (mem_insert_ticket _ h)

lemma mem_process_item {t : Ticket} {store store' : List Ticket}
    {oid em : Option String} {item : LineItem}
    (hp : process_item oid em store item = some store')
    (h : t ∈ store) : t ∈ store' := by
  unfold process_item at hp
  split at hp
  · cases hp; exact h
  · split at hp
    · cases hp; exact h
    · split at hp
      · cases hp
      · cases hp; exact mem_insertUnits _ _ _ _ _ h

lemma mem_process_items {t : Ticket} {oid em : Option String} :
    ∀ {items : List LineItem} {store store' : List Ticket},
      process_items oid em items store = some store' → t ∈ store → t ∈ store'
  | [], store, store', hp, h => by cases hp; exact h
  | item :: rest, store, store', hp, h => by
    unfold process_items at hp
    split at hp
    · cases hp
    case _ s2 heq =>
      exact mem_process_items hp (mem_process_item heq h)

/-- C2: once a ticket's `usado` flag is true, every redemption call for its
identifier returns `valido = false` and leaves the store unchanged; and the
flag is monotonic: neither a redemption call nor a webhook delivery ever
turns a used ticket back into an unused one (no operation of the system
resets `usado` to false). -/
theorem C2_used_monotonic :
    (∀ (store : List Ticket) (raw : String) (t : Ticket),
      findTicket store (normalize_id raw) = some t → t.usado = true →
      (verificar_ticket store raw).2.valido = false ∧
      (verificar_ticket store raw).1 = store) ∧
    (∀ (store : List Ticket) (raw : String) (t : Ticket),
      t ∈ store → t.usado = true →
      ∃ t' ∈ (verificar_ticket store raw).1, t'.ticket_id = t.ticket_id ∧ t'.usado = true) ∧
    (∀ (hmacB64 : String → String → String) (secret data : String)
        (hdr : Option String) (pedido : Pedido) (store : List Ticket) (t : Ticket),
      t ∈ store → t.usado = true →
      ∃ t' ∈ (webhook_orden_pagada hmacB64 secret data hdr pedido store).1,
        t'.ticket_id = t.ticket_id ∧ t'.usado = true) := by
  refine ⟨?_, ?_, ?_⟩
  · intro store raw t hfind hu
    simp [verificar_ticket, hfind, hu]
  · intro store raw t hmem hu
    have hcases : (verificar_ticket store raw).1 = store ∨
        (verificar_ticket store raw).1 = markUsed store (normalize_id raw) := by
      unfold verificar_ticket
      dsimp only
      split
      · split <;> simp
      · split
        · simp
        · split <;> simp
    rcases hcases with h | h
    · exact ⟨t, by rw [h]; exact hmem, rfl, hu⟩
    · exact ⟨t, by rw [h]; exact mem_markUsed_of_used _ hmem hu, rfl, hu⟩
  · intro hmacB64 secret data hdr pedido store t hmem hu
    unfold webhook_orden_pagada
    split
    · exact ⟨t, hmem, rfl, hu⟩
    · split
      · exact ⟨t, hmem, rfl, hu⟩
      case _ s2 heq =>
        exact ⟨t, mem_process_items heq hmem, rfl, hu⟩

/-- Witness for C2: a store holding one already-used ticket; redeeming it is
refused and the store survives a redemption and a webhook delivery with the
flag still set. -/
theorem C2_witness :
    (verificar_ticket [⟨"T1", "SKU1", none, "O1", true⟩] "T1").2.valido = false ∧
    (verificar_ticket [⟨"T1", "SKU1", none, "O1", true⟩] "T1").1 =
      [⟨"T1", "SKU1", none, "O1", true⟩] :=
  C2_used_monotonic.1 [⟨"T1", "SKU1", none, "O1", true⟩] "T1"
    ⟨"T1", "SKU1", none, "O1", true⟩ (by decide) (by decide)

lemma hasId_insert_mono {s : List Ticket} {j : String} (x : Ticket)
    (h : hasId s j = true) : hasId (insert_ticket s x) j = true := by
  unfold insert_ticket
  split
  · exact h
  · simp only [hasId, List.any_append]
    simp [hasId] at h
    simp [h]

lemma hasId_insert_self (s : List Ticket) (x : Ticket) :
    hasId (insert_ticket s x) x.ticket_id = true := by
  unfold insert_ticket
  split
  case isTrue h => exact h
  case isFalse h => simp [hasId, List.any_append]

lemma hasId_foldl_insert_mono {f : Nat → Ticket} :
    ∀ (l : List Nat) (s : List Ticket) (j : String), hasId s j = true →
      hasId (l.foldl (fun st i => insert_ticket st (f i)) s) j = true
  | [], _, _, h => h
  | _ :: as, _, j, h =>
    hasId_foldl_insert_mono as _ j (hasId_insert_mono _ h)

lemma hasId_foldl_insert_mem {f : Nat → Ticket} :
    ∀ (l : List Nat) (s : List Ticket) (i : Nat), i ∈ l →
      hasId (l.foldl (fun st i => insert_ticket st (f i)) s) (f i).ticket_id = true := by
  intro l
  induction l with
  | nil => intro s i h; cases h
  | cons a as ih =>
    intro s i h
    rcases List.mem_cons.mp h with rfl | h'
    · exact hasId_foldl_insert_mono as _ _ (hasId_insert_self s (f i))
    · exact ih _ i h'

lemma foldl_insert_noop {f : Nat → Ticket} :
    ∀ (l : List Nat) (s : List Ticket),
      (∀ i ∈ l, hasId s (f i).ticket_id = true) →
      l.foldl (fun st i => insert_ticket st (f i)) s = s := by
  intro l
  induction l with
  | nil => intro s _; rfl
  | cons a as ih =>
    intro s h
    have ha : insert_ticket s (f a) = s := by
      unfold insert_ticket
      simp [h a (List.mem_cons_self a as)]
    show as.foldl _ (insert_ticket s (f a)) = s
    rw [ha]
    exact ih s (fun i hi => h i (List.mem_cons_of_mem a hi))

lemma hasId_process_item_mono {oid em : Option String} {s s' : List Ticket}
    {item : LineItem} {j : String}
    (hp : process_item oid em s item = some s') (h : hasId s j = true) :
    hasId s' j = true := by
  unfold process_item at hp
  split at hp
  · cases hp; exact h
  · split at hp
    · cases hp; exact h
    · split at hp
      · cases hp
      · cases hp; exact hasId_foldl_insert_mono _ _ _ h

lemma hasId_process_items_mono {oid em : Option String} {j : String} :
    ∀ {items : List LineItem} {s s' : List Ticket},
      process_items oid em items s = some s' → hasId s j = true → hasId s' j = true
  | [], s, s', hp, h => by cases hp; exact h
  | item :: rest, s, s', hp, h => by
    unfold process_items at hp
    split at hp
    · cases hp
    case _ s2 heq =>
      exact hasId_process_items_mono hp (hasId_process_item_mono heq h)

lemma process_items_idem {oid em : Option String} :
    ∀ {items : List LineItem} {s out : List Ticket},
      process_items oid em items s = some out →
      process_items oid em items out = some out
  | [], s, out, hp => by cases hp; rfl
  | item :: rest, s, out, hp => by
    unfold process_items at hp
    split at hp
    · cases hp
    case _ s1 heq =>
      have hrest := hp
      unfold process_items
      have hitem : process_item oid em out item = some out := by
        cases hsku : item.sku with
        | none => simp [process_item, hsku]
        | some sk =>
          by_cases hs : sk = ""
          · simp [process_item, hsku, hs]
          · cases hq : item.quantity with
            | none =>
              exfalso
              simp [process_item, hsku, hs, hq] at heq
            | some q =>
              simp [process_item, hsku, hs, hq] at heq
              have hids : ∀ i ∈ List.range q.toNat,
                  hasId out (derive_ticket_id oid item.id (i + 1)) = true := by
                intro i hi
                refine hasId_process_items_mono hrest ?_
                rw [← heq]
                exact @hasId_foldl_insert_mem
                  (fun i => (⟨derive_ticket_id oid item.id (i + 1), sk, em,
                    pyStrOpt oid, false⟩ : Ticket))
                  (List.range q.toNat) s i hi
              simp only [process_item, hsku, hq, if_neg hs, Option.some.injEq]
              unfold insertUnits
              exact @foldl_insert_noop
                (fun i => (⟨derive_ticket_id oid item.id (i + 1), sk, em,
                  pyStrOpt oid, false⟩ : Ticket))
                (List.range q.toNat) out hids
      rw [hitem]
      exact process_items_idem hrest

/-- C3: processing the identical paid-order notification twice leaves the
store exactly as processing it once (same records, so zero new tickets on
the second pass, and the same HTTP response); and an insertion whose
`ticket_id` already exists is a silent no-op that neither errors nor
overwrites the existing record (its `usado` flag included). -/
theorem C3_idempotent_issuance :
    (∀ (hmacB64 : String → String → String) (secret data : String)
        (hdr : Option String) (pedido : Pedido) (store : List Ticket),
      webhook_orden_pagada hmacB64 secret data hdr pedido
          (webhook_orden_pagada hmacB64 secret data hdr pedido store).1 =
        webhook_orden_pagada hmacB64 secret data hdr pedido store) ∧
    (∀ (store : List Ticket) (t : Ticket),
      hasId store t.ticket_id = true → insert_ticket store t = store) := by
  constructor
  · intro hmacB64 secret data hdr pedido store
    by_cases hv : verificar_webhook hmacB64 secret data hdr = true
    · cases hp : process_items pedido.id pedido.email pedido.line_items store with
      | none =>
        have h1 : webhook_orden_pagada hmacB64 secret data hdr pedido store =
            (store, .err) := by
          simp [webhook_orden_pagada, hv, hp]
        rw [h1]
        exact h1
      | some s2 =>
        have h1 : webhook_orden_pagada hmacB64 secret data hdr pedido store =
            (s2, .success) := by
          simp [webhook_orden_pagada, hv, hp]
        rw [h1]
        simp [webhook_orden_pagada, hv, process_items_idem hp]
    · have hv' : verificar_webhook hmacB64 secret data hdr = false := by
        revert hv; cases verificar_webhook hmacB64 secret data hdr <;> simp
      have h1 : webhook_orden_pagada hmacB64 secret data hdr pedido store =
          (store, .unauthorized) := by
        simp [webhook_orden_pagada, hv']
      rw [h1]
      exact h1
  · intro store t h
    unfold insert_ticket
    simp [h]

/-- Witness for C3: re-inserting an existing ticket (with a different
`usado` flag in the incoming row) is a silent no-op. -/
theorem C3_witness :
    insert_ticket [⟨"T1", "SKU1", none, "O1", true⟩]
      ⟨"T1", "SKU1", none, "O1", false⟩ = [⟨"T1", "SKU1", none, "O1", true⟩] :=
  C3_idempotent_issuance.2 [⟨"T1", "SKU1", none, "O1", true⟩]
    ⟨"T1", "SKU1", none, "O1", false⟩ (by decide)

lemma foldl_insert_fresh {f : Nat → Ticket} :
    ∀ (l : List Nat) (s : List Ticket),
      (∀ i ∈ l, hasId s (f i).ticket_id = false) →
      List.Pairwise (fun i j => (f i).ticket_id ≠ (f j).ticket_id) l →
      l.foldl (fun st i => insert_ticket st (f i)) s = s ++ l.map f := by
  intro l
  induction l with
  | nil => intro s _ _; simp
  | cons a as ih =>
    intro s hfresh hpw
    have ha : insert_ticket s (f a) = s ++ [f a] := by
      unfold insert_ticket
      simp [hfresh a (List.mem_cons_self a as)]
    have hfresh2 : ∀ i ∈ as, hasId (s ++ [f a]) (f i).ticket_id = false := by
      intro i hi
      have h1 := hfresh i (List.mem_cons_of_mem a hi)
      have h2 : (f a).ticket_id ≠ (f i).ticket_id := (List.pairwise_cons.mp hpw).1 i hi
      simp only [hasId, List.any_append, Bool.or_eq_false_iff]
      refine ⟨h1, ?_⟩
      simpa using h2
    show as.foldl _ (insert_ticket s (f a)) = _
    rw [ha, ih (s ++ [f a]) hfresh2 (List.pairwise_cons.mp hpw).2]
    simp

/-- C4: for a verified order notification, a line item with falsy `sku`
(absent or empty) is skipped entirely with no error; a line item with a
non-empty `sku` and integer `quantity` creates exactly `quantity` tickets
with identifiers `TICKET-<order_id>-<item_id>-<unit>` for the 1-based unit
indices `1..quantity`, each with `usado = false` (when those identifiers
are not yet in the store); and the notification `O1` with one line item
`{sku: EVT1, quantity: 2, id: L1}` produces exactly the two unused tickets
`TICKET-O1-L1-1` and `TICKET-O1-L1-2`. -/
theorem C4_ticket_derivation :
    (∀ (oid em : Option String) (store : List Ticket) (item : LineItem),
      item.sku = none ∨ item.sku = some "" →
      process_item oid em store item = some store) ∧
    (∀ (oid em iid : Option String) (sk : String) (q : Int) (store : List Ticket),
      sk ≠ "" →
      (∀ i ∈ List.range q.toNat,
        hasId store (derive_ticket_id oid iid (i + 1)) = false) →
      List.Pairwise
        (fun i j => derive_ticket_id oid iid (i + 1) ≠ derive_ticket_id oid iid (j + 1))
        (List.range q.toNat) →
      process_item oid em store ⟨some sk, some q, iid⟩ =
        some (store ++ (List.range q.toNat).map
          (fun i => ⟨derive_ticket_id oid iid (i + 1), sk, em, pyStrOpt oid, false⟩))) ∧
    (webhook_orden_pagada (fun _ _ => "sig") "secret" "body" (some "sig")
        ⟨none, some "O1", [⟨some "EVT1", some 2, some "L1"⟩]⟩ [] =
      ([⟨"TICKET-O1-L1-1", "EVT1", none, "O1", false⟩,
        ⟨"TICKET-O1-L1-2", "EVT1", none, "O1", false⟩], .success)) := by
  refine ⟨?_, ?_, by decide⟩
  · intro oid em store item h
    rcases h with h | h <;> simp [process_item, h]
  · intro oid em iid sk q store hsk hfresh hpw
    simp only [process_item, if_neg hsk, Option.some.injEq]
    unfold insertUnits
    exact @foldl_insert_fresh
      (fun i => (⟨derive_ticket_id oid iid (i + 1), sk, em, pyStrOpt oid, false⟩ : Ticket))
      (List.range q.toNat) store hfresh hpw

/-- Witness for C4: two units of `EVT1` on order `O1`, line item `L1`,
issued into an empty store. -/
theorem C4_witness :
    process_item (some "O1") none []
      ⟨some "EVT1", some 2, some "L1"⟩ =
    some [⟨"TICKET-O1-L1-1", "EVT1", none, "O1", false⟩,
          ⟨"TICKET-O1-L1-2", "EVT1", none, "O1", false⟩] :=
  C4_ticket_derivation.2.1 (some "O1") none (some "L1") "EVT1" 2 []
    (by decide) (by decide) (by decide)

/-- C7: `verificar_webhook` returns false when the shared secret is empty,
when the signature header is absent, and when the computed digest differs
from the provided signature; and whenever it returns false the webhook
handler answers 401 and leaves the ticket store untouched (it never reaches
the store: the early `abort(401)` precedes `get_db()`). -/
theorem C7_fail_closed :
    (∀ (hmacB64 : String → String → String) (data : String) (hdr : Option String),
      verificar_webhook hmacB64 "" data hdr = false) ∧
    (∀ (hmacB64 : String → String → String) (secret data : String),
      verificar_webhook hmacB64 secret data none = false) ∧
    (∀ (hmacB64 : String → String → String) (secret data h : String),
      hmacB64 secret data ≠ h →
      verificar_webhook hmacB64 secret data (some h) = false) ∧
    (∀ (hmacB64 : String → String → String) (secret data : String)
        (hdr : Option String) (pedido : Pedido) (store : List Ticket),
      verificar_webhook hmacB64 secret data hdr = false →
      webhook_orden_pagada hmacB64 secret data hdr pedido store =
        (store, .unauthorized)) := by
  refine ⟨?_, ?_, ?_, ?_⟩
  · intro hmacB64 data hdr
    unfold verificar_webhook
    cases hdr with
    | none => rfl
    | some h => by_cases hh : h = "" <;> simp [hh]
  · intro hmacB64 secret data
    rfl
  · intro hmacB64 secret data h hne
    unfold verificar_webhook
    by_cases hh : h = ""
    · simp [hh]
    · by_cases hs : secret = ""
      · simp [hh, hs]
      · simp [hh, hs]
        exact hne
  · intro hmacB64 secret data hdr pedido store hv
    simp [webhook_orden_pagada, hv]

/-- Witness for C7: a wrong signature is rejected. -/
theorem C7_witness :
    verificar_webhook (fun _ _ => "good") "sec" "body" (some "bad") = false :=
  C7_fail_closed.2.2.1 (fun _ _ => "good") "sec" "body" "bad" (by decide)

/-- C8 counterexample: a signed payload with no `id` field and one
ticket-bearing line item is not rejected: the handler creates the ticket
`TICKET-None-L1-1` (the missing order id is rendered as the string `None`)
and answers success, so a store mutation does happen and no client-facing
validation failure is reported. -/
theorem C8_counterexample :
    webhook_orden_pagada (fun _ _ => "sig") "sec" "body" (some "sig")
        ⟨none, none, [⟨some "EVT1", some 1, some "L1"⟩]⟩ [] =
      ([⟨"TICKET-None-L1-1", "EVT1", none, "None", false⟩], .success) := by
  decide

lemma process_items_none_orden (em : Option String) :
    ∀ (items : List LineItem) (s : List Ticket),
      process_items none em items s = process_items (some "None") em items s
  | [], _ => rfl
  | item :: rest, s => by
    unfold process_items
    have hitem : process_item none em s item = process_item (some "None") em s item := rfl
    rw [hitem]
    cases process_item (some "None") em s item with
    | none => rfl
    | some s2 => exact process_items_none_orden em rest s2

/-- C8 amended: a notification missing `order_id` is not validated.
Processing does not crash and performs no special handling at all: the
handler behaves exactly as if `order_id` were the literal string `"None"`,
deriving ticket identifiers containing `None`, mutating the store
accordingly and reporting success — no client-facing validation failure
distinct from a system failure exists in the code. -/
theorem C8_missing_order_id (hmacB64 : String → String → String)
    (secret data : String) (hdr : Option String) (email : Option String)
    (items : List LineItem) (store : List Ticket) :
    webhook_orden_pagada hmacB64 secret data hdr ⟨email, none, items⟩ store =
      webhook_orden_pagada hmacB64 secret data hdr ⟨email, some "None", items⟩ store := by
  unfold webhook_orden_pagada
  dsimp only
  rw [process_items_none_orden]

lemma hasId_grow {s out : List Ticket} {j : String}
    (hp : s <+: out) (h : hasId s j = true) : hasId out j = true := by
  obtain ⟨tail, rfl⟩ := hp
  simp only [hasId, List.any_append]
  simp [hasId] at h
  simp [h]

lemma extendsFresh_refl (s : List Ticket) : ExtendsFresh s s :=
  ⟨List.prefix_refl s, fun _ ht => Or.inl ht⟩

lemma extendsFresh_trans {s s1 out : List Ticket}
    (h1 : ExtendsFresh s s1) (h2 : ExtendsFresh s1 out) : ExtendsFresh s out := by
  refine ⟨h1.1.trans h2.1, ?_⟩
  intro t ht
  rcases h2.2 t ht with hmem | ⟨hfresh, hu⟩
  · exact h1.2 t hmem
  · right
    refine ⟨?_, hu⟩
    cases hs : hasId s t.ticket_id with
    | false => rfl
    | true => rw [hasId_grow h1.1 hs] at hfresh; cases hfresh

lemma extendsFresh_insert {s : List Ticket} {x : Ticket} (hx : x.usado = false) :
    ExtendsFresh s (insert_ticket s x) := by
  unfold insert_ticket
  split
  · exact extendsFresh_refl s
  case isFalse h =>
    refine ⟨⟨[x], rfl⟩, ?_⟩
    intro t ht
    rcases List.mem_append.mp ht with hmem | hmem
    · exact Or.inl hmem
    · right
      rcases List.mem_singleton.mp hmem with rfl
      refine ⟨?_, hx⟩
      revert h; cases hasId s t.ticket_id <;> simp

lemma extendsFresh_foldl_insert {f : Nat → Ticket} (hf : ∀ i, (f i).usado = false) :
    ∀ (l : List Nat) (s : List Ticket),
      ExtendsFresh s (l.foldl (fun st i => insert_ticket st (f i)) s)
  | [], s => extendsFresh_refl s
  | a :: as, s =>
    extendsFresh_trans (extendsFresh_insert (hf a))
      (extendsFresh_foldl_insert hf as (insert_ticket s (f a)))

lemma extendsFresh_process_item {oid em : Option String} {s s' : List Ticket}
    {item : LineItem} (hp : process_item oid em s item = some s') :
    ExtendsFresh s s' := by
  unfold process_item at hp
  split at hp
  · cases hp; exact extendsFresh_refl s
  · split at hp
    · cases hp; exact extendsFresh_refl s
    · split at hp
      · cases hp
      · cases hp
        exact extendsFresh_foldl_insert (fun i => rfl) _ s

lemma extendsFresh_process_items {oid em : Option String} :
    ∀ {items : List LineItem} {s out : List Ticket},
      process_items oid em items s = some out → ExtendsFresh s out
  | [], s, out, hp => by cases hp; exact extendsFresh_refl s
  | item :: rest, s, out, hp => by
    unfold process_items at hp
    split at hp
    · cases hp
    case _ s2 heq =>
      exact extendsFresh_trans (extendsFresh_process_item heq)
        (extendsFresh_process_items hp)

/-- C9 counterexample: the success response carries no count of newly
created tickets.  Delivering the `O1` notification (two units of `EVT1`)
to an empty store creates two tickets; delivering it to a store that
already holds `TICKET-O1-L1-1` creates only one — yet the two HTTP
responses are identical (`{"status": "success"}`), so the issuance result
does not report the number of newly created tickets. -/
theorem C9_counterexample :
    (webhook_orden_pagada (fun _ _ => "s") "k" "b" (some "s")
        ⟨none, some "O1", [⟨some "EVT1", some 2, some "L1"⟩]⟩ []).1.length = 2 ∧
    (webhook_orden_pagada (fun _ _ => "s") "k" "b" (some "s")
        ⟨none, some "O1", [⟨some "EVT1", some 2, some "L1"⟩]⟩
        [⟨"TICKET-O1-L1-1", "EVT1", none, "O1", false⟩]).1.length = 2 ∧
    (webhook_orden_pagada (fun _ _ => "s") "k" "b" (some "s")
        ⟨none, some "O1", [⟨some "EVT1", some 2, some "L1"⟩]⟩ []).2 =
      (webhook_orden_pagada (fun _ _ => "s") "k" "b" (some "s")
          ⟨none, some "O1", [⟨some "EVT1", some 2, some "L1"⟩]⟩
          [⟨"TICKET-O1-L1-1", "EVT1", none, "O1", false⟩]).2 := by
  decide

/-- C9 amended: the issuance response is only a status (success, error or
unauthorized) with no created-ticket count; durable writes do occur only
for newly created identifiers: after any webhook delivery the original
records survive unchanged as a prefix of the store and every added record
has an identifier that was absent before and starts out unused. -/
theorem C9_writes_only_new (hmacB64 : String → String → String)
    (secret data : String) (hdr : Option String) (pedido : Pedido)
    (store : List Ticket) :
    ExtendsFresh store (webhook_orden_pagada hmacB64 secret data hdr pedido store).1 := by
  unfold webhook_orden_pagada
  split
  · exact extendsFresh_refl store
  · split
    · exact extendsFresh_refl store
    case _ s2 heq =>
      exact extendsFresh_process_items heq

lemma process_items_raises {oid em : Option String} :
    ∀ {items : List LineItem} (s : List Ticket),
      (∃ item ∈ items, truthyStr item.sku = true ∧ item.quantity = none) →
      process_items oid em items s = none
  | [], _, h => by simp at h
  | item :: rest, s, h => by
    unfold process_items
    rcases h with ⟨bad, hmem, hsku, hq⟩
    rcases List.mem_cons.mp hmem with rfl | hmem'
    · have : process_item oid em s bad = none := by
        cases hsk : bad.sku with
        | none => simp [truthyStr, hsk] at hsku
        | some sk =>
          have hne : ¬sk = "" := by
            simp [truthyStr, hsk] at hsku
            simpa using hsku
          simp [process_item, hsk, hne, hq]
      rw [this]
    · cases hpi : process_item oid em s item with
      | none => rfl
      | some s2 => exact process_items_raises s2 ⟨bad, hmem', hsku, hq⟩

/-- C10: issuance is all-or-nothing per notification.  If processing a
verified notification raises (in particular when some line item has a
truthy `sku` but a missing or non-integer `quantity`), nothing is
committed: the durable store is exactly the pre-request store and the
caller receives the generic 500 error response — never partially applied
inserts. -/
theorem C10_all_or_nothing :
    (∀ (hmacB64 : String → String → String) (secret data : String)
        (hdr : Option String) (pedido : Pedido) (store : List Ticket),
      verificar_webhook hmacB64 secret data hdr = true →
      process_items pedido.id pedido.email pedido.line_items store = none →
      webhook_orden_pagada hmacB64 secret data hdr pedido store = (store, .err)) ∧
    (∀ (oid em : Option String) (items : List LineItem) (store : List Ticket),
      (∃ item ∈ items, truthyStr item.sku = true ∧ item.quantity = none) →
      process_items oid em items store = none) := by
  constructor
  · intro hmacB64 secret data hdr pedido store hv hp
    simp [webhook_orden_pagada, hv, hp]
  · intro oid em items store h
    exact process_items_raises store h

/-- Witness for C10: order `O9` has a valid first item and a second item
whose `sku` is present but whose `quantity` is missing; the whole delivery
errors out with the store untouched (the first item's insert is rolled
back). -/
theorem C10_witness :
    webhook_orden_pagada (fun _ _ => "sig") "sec" "body" (some "sig")
      ⟨none, some "O9", [⟨some "EVT1", some 1, some "L1"⟩, ⟨some "EVT2", none, some "L2"⟩]⟩
      [] = ([], .err) :=
  C10_all_or_nothing.1 (fun _ _ => "sig") "sec" "body" (some "sig")
    ⟨none, some "O9", [⟨some "EVT1", some 1, some "L1"⟩, ⟨some "EVT2", none, some "L2"⟩]⟩
    [] (by decide) (by decide)

lemma head?_dropWhile_not (p : Char → Bool) :
    ∀ (l : List Char) (c : Char), (l.dropWhile p).head? = some c → p c = false := by
  intro l
  induction l with
  | nil => intro c h; simp at h
  | cons a as ih =>
    intro c h
    by_cases ha : p a
    · rw [List.dropWhile_cons_of_pos ha] at h
      exact ih c h
    · rw [List.dropWhile_cons_of_neg ha] at h
      simp at h
      subst h
      revert ha; cases p a <;> simp

lemma mem_of_getLast?_eq : ∀ {l : List Char} {x : Char}, l.getLast? = some x → x ∈ l
  | [], _, h => by simp at h
  | [a], x, h => by
    simp at h
    simp [h]
  | a :: b :: t, x, h => by
    rw [List.getLast?_cons_cons] at h
    exact List.mem_cons_of_mem a (mem_of_getLast?_eq h)

lemma stripList_head? {l : List Char} {c : Char}
    (h : (stripList l).head? = some c) : is_py_space c = false := by
  unfold stripList at h
  rw [List.head?_reverse] at h
  cases hz : (l.dropWhile is_py_space).reverse.dropWhile is_py_space with
  | nil => rw [hz] at h; simp at h
  | cons z zrest =>
    obtain ⟨pre, hpre⟩ :
        (l.dropWhile is_py_space).reverse.dropWhile is_py_space <:+
          (l.dropWhile is_py_space).reverse := List.dropWhile_suffix is_py_space
    have h2 : (l.dropWhile is_py_space).reverse.getLast? = some c := by
      rw [← hpre, List.getLast?_append_of_ne_nil pre (by rw [hz]; simp)]
      exact h
    rw [List.getLast?_reverse] at h2
    exact head?_dropWhile_not is_py_space l c h2

lemma stripList_getLast? {l : List Char} {c : Char}
    (h : (stripList l).getLast? = some c) : is_py_space c = false := by
  unfold stripList at h
  rw [List.getLast?_reverse] at h
  exact head?_dropWhile_not is_py_space _ c h

lemma stripList_of_clean {l : List Char}
    (hh : ∀ c, l.head? = some c → is_py_space c = false)
    (hl : ∀ c, l.getLast? = some c → is_py_space c = false) :
    stripList l = l := by
  have h1 : l.dropWhile is_py_space = l := by
    cases l with
    | nil => rfl
    | cons a as =>
      rw [List.dropWhile_cons_of_neg]
      simp [hh a rfl]
  unfold stripList
  rw [h1]
  have h2 : l.reverse.dropWhile is_py_space = l.reverse := by
    cases hr : l.reverse with
    | nil => simp
    | cons b bs =>
      rw [List.dropWhile_cons_of_neg]
      have hb : l.getLast? = some b := by
        rw [← List.head?_reverse, hr]
        rfl
      simp [hl b hb]
  rw [h2, List.reverse_reverse]

lemma stripList_idem (l : List Char) : stripList (stripList l) = stripList l :=
  stripList_of_clean (fun _ h => stripList_head? h) (fun _ h => stripList_getLast? h)

lemma pyStrip_idem (s : String) : pyStrip (pyStrip s) = pyStrip s :=
  congrArg (fun x => (⟨x⟩ : String)) (stripList_idem s.data)

lemma mem_stripList {c : Char} {l : List Char} (h : c ∈ stripList l) : c ∈ l := by
  unfold stripList at h
  rw [List.mem_reverse] at h
  have h2 := (List.dropWhile_suffix is_py_space).subset h
  rw [List.mem_reverse] at h2
  exact (List.dropWhile_suffix is_py_space).subset h2

lemma splitOnChar_ne_nil (sep : Char) : ∀ (l : List Char), splitOnChar sep l ≠ []
  | [] => by simp [splitOnChar]
  | c :: cs => by
    unfold splitOnChar
    split
    · simp
    · split <;> simp

lemma not_mem_splitOnChar (sep : Char) :
    ∀ (xs : List Char), ∀ l ∈ splitOnChar sep xs, sep ∉ l
  | [], l, hl => by
    simp [splitOnChar] at hl
    simp [hl]
  | c :: cs, l, hl => by
    unfold splitOnChar at hl
    cases hs : splitOnChar sep cs with
    | nil => exact absurd hs (splitOnChar_ne_nil sep cs)
    | cons p ps =>
      rw [hs] at hl
      dsimp only at hl
      by_cases hc : c = sep
      · rw [if_pos hc] at hl
        rcases List.mem_cons.mp hl with rfl | hl'
        · simp
        · exact not_mem_splitOnChar sep cs l (by rw [hs]; exact hl')
      · rw [if_neg hc] at hl
        rcases List.mem_cons.mp hl with rfl | hl'
        · intro hmem
          rcases List.mem_cons.mp hmem with h1 | h1
          · exact hc h1.symm
          · exact not_mem_splitOnChar sep cs p
              (by rw [hs]; exact List.mem_cons_self p ps) h1
        · exact not_mem_splitOnChar sep cs l
            (by rw [hs]; exact List.mem_cons_of_mem p hl')

lemma mem_of_mem_splitOnChar (sep : Char) :
    ∀ (xs : List Char), ∀ l ∈ splitOnChar sep xs, ∀ c ∈ l, c ∈ xs
  | [], l, hl => by
    simp [splitOnChar] at hl
    simp [hl]
  | x :: cs, l, hl => by
    unfold splitOnChar at hl
    cases hs : splitOnChar sep cs with
    | nil => exact absurd hs (splitOnChar_ne_nil sep cs)
    | cons p ps =>
      rw [hs] at hl
      dsimp only at hl
      by_cases hc : x = sep
      · rw [if_pos hc] at hl
        rcases List.mem_cons.mp hl with rfl | hl'
        · intro c hcmem; cases hcmem
        · intro c hcmem
          exact List.mem_cons_of_mem x
            (mem_of_mem_splitOnChar sep cs l (by rw [hs]; exact hl') c hcmem)
      · rw [if_neg hc] at hl
        rcases List.mem_cons.mp hl with rfl | hl'
        · intro c hcmem
          rcases List.mem_cons.mp hcmem with rfl | h1
          · exact List.mem_cons_self c _
          · exact List.mem_cons_of_mem x
              (mem_of_mem_splitOnChar sep cs p
                (by rw [hs]; exact List.mem_cons_self p ps) c h1)
        · intro c hcmem
          exact List.mem_cons_of_mem x
            (mem_of_mem_splitOnChar sep cs l
              (by rw [hs]; exact List.mem_cons_of_mem p hl') c hcmem)

lemma getLastD_mem {α : Type} (l : List α) (d : α) (h : l ≠ []) :
    l.getLastD d ∈ l := by
  rw [List.getLastD_eq_getLast?, List.getLast?_eq_getLast l h]
  exact List.getLast_mem h

lemma headD_mem {α : Type} (l : List α) (d : α) (h : l ≠ []) : l.headD d ∈ l := by
  cases l with
  | nil => exact absurd rfl h
  | cons a as => exact List.mem_cons_self a as

lemma getLastD_irrel {α : Type} {l : List α} (h : l ≠ []) (d₁ d₂ : α) :
    l.getLastD d₁ = l.getLastD d₂ := by
  rw [List.getLastD_eq_getLast?, List.getLastD_eq_getLast?, List.getLast?_eq_getLast l h]
  rfl

lemma splitOnChar_single {sep : Char} :
    ∀ {ys : List Char}, sep ∉ ys → splitOnChar sep ys = [ys]
  | [], _ => rfl
  | c :: cs, h => by
    have h1 : ¬c = sep := fun hc => h (by rw [hc]; exact List.mem_cons_self _ _)
    have h2 : sep ∉ cs := fun hm => h (List.mem_cons_of_mem c hm)
    unfold splitOnChar
    rw [splitOnChar_single h2]
    dsimp only
    rw [if_neg h1]

lemma two_le_splitOnChar_length (sep : Char) :
    ∀ (l : List Char), sep ∈ l → 2 ≤ (splitOnChar sep l).length
  | c :: cs, h => by
    unfold splitOnChar
    cases hs : splitOnChar sep cs with
    | nil => exact absurd hs (splitOnChar_ne_nil sep cs)
    | cons p ps =>
      dsimp only
      by_cases hc : c = sep
      · rw [if_pos hc]; simp
      · rw [if_neg hc]
        have h' : sep ∈ cs := by
          rcases List.mem_cons.mp h with h1 | h1
          · exact absurd h1.symm hc
          · exact h1
        have h2 := two_le_splitOnChar_length sep cs h'
        rw [hs] at h2
        simp at h2 ⊢
        omega

lemma splitOnChar_cons' (sep c : Char) (cs p : List Char) (ps : List (List Char))
    (hs : splitOnChar sep cs = p :: ps) :
    splitOnChar sep (c :: cs) =
      if c = sep then [] :: p :: ps else (c :: p) :: ps := by
  show (match splitOnChar sep cs with
    | [] => [[]]
    | p :: ps => if c = sep then [] :: p :: ps else (c :: p) :: ps) = _
  rw [hs]

lemma getLastD_splitOnChar_append (sep : Char) :
    ∀ (xs ys : List Char),
      (splitOnChar sep (xs ++ sep :: ys)).getLastD [] =
        (splitOnChar sep ys).getLastD []
  | [], ys => by
    show (splitOnChar sep (sep :: ys)).getLastD [] = _
    cases hs : splitOnChar sep ys with
    | nil => exact absurd hs (splitOnChar_ne_nil sep ys)
    | cons p ps =>
      rw [splitOnChar_cons' sep sep ys p ps hs, if_pos rfl, List.getLastD_cons]
  | x :: xs, ys => by
    have ih := getLastD_splitOnChar_append sep xs ys
    show (splitOnChar sep (x :: (xs ++ sep :: ys))).getLastD [] = _
    cases hs : splitOnChar sep (xs ++ sep :: ys) with
    | nil => exact absurd hs (splitOnChar_ne_nil _ _)
    | cons p ps =>
      have hps : ps ≠ [] := by
        have h2 := two_le_splitOnChar_length sep (xs ++ sep :: ys) (by simp)
        rw [hs] at h2
        intro hnil
        rw [hnil] at h2
        simp at h2
      rw [hs] at ih
      rw [splitOnChar_cons' sep x (xs ++ sep :: ys) p ps hs]
      by_cases hc : x = sep
      · rw [if_pos hc, List.getLastD_cons]
        exact ih
      · rw [if_neg hc, List.getLastD_cons, getLastD_irrel hps (x :: p) []]
        rw [List.getLastD_cons, getLastD_irrel hps p []] at ih
        exact ih

lemma splitOnChar_append_left (sep : Char) :
    ∀ (xs ys : List Char), sep ∉ xs →
      splitOnChar sep (xs ++ sep :: ys) = xs :: splitOnChar sep ys
  | [], ys, _ => by
    show splitOnChar sep (sep :: ys) = [] :: splitOnChar sep ys
    cases hs : splitOnChar sep ys with
    | nil => exact absurd hs (splitOnChar_ne_nil _ _)
    | cons p ps => rw [splitOnChar_cons' sep sep ys p ps hs, if_pos rfl]
  | x :: xs, ys, h => by
    have h1 : ¬x = sep := fun hc => h (by rw [hc]; exact List.mem_cons_self _ _)
    have h2 : sep ∉ xs := fun hm => h (List.mem_cons_of_mem x hm)
    show splitOnChar sep (x :: (xs ++ sep :: ys)) = _
    rw [splitOnChar_cons' sep x (xs ++ sep :: ys) xs (splitOnChar sep ys)
        (splitOnChar_append_left sep xs ys h2), if_neg h1]

lemma no_slash_final (tid2 : List Char) :
    '/' ∉ (if ((splitOnChar '/' tid2).getLastD []).contains '?'
           then (splitOnChar '?' ((splitOnChar '/' tid2).getLastD [])).headD []
           else (splitOnChar '/' tid2).getLastD []) := by
  have hseg : (splitOnChar '/' tid2).getLastD [] ∈ splitOnChar '/' tid2 :=
    getLastD_mem _ _ (splitOnChar_ne_nil '/' tid2)
  have hns : '/' ∉ (splitOnChar '/' tid2).getLastD [] :=
    not_mem_splitOnChar '/' tid2 _ hseg
  split
  · intro hmem
    have hq : (splitOnChar '?' ((splitOnChar '/' tid2).getLastD [])).headD [] ∈
        splitOnChar '?' ((splitOnChar '/' tid2).getLastD []) :=
      headD_mem _ _ (splitOnChar_ne_nil _ _)
    exact hns (mem_of_mem_splitOnChar '?' _ _ hq '/' hmem)
  · exact hns

lemma normalize_id_nonurl {s : String}
    (h : (startsWithList "http://".data (stripList s.data) ||
          startsWithList "https://".data (stripList s.data)) = false) :
    normalize_id s = pyStrip s := by
  simp only [normalize_id, h]
  rfl

lemma normalize_id_url_no_slash {s : String}
    (h : (startsWithList "http://".data (stripList s.data) ||
          startsWithList "https://".data (stripList s.data)) = true) :
    '/' ∉ (normalize_id s).data := by
  simp only [normalize_id, h, if_true]
  exact no_slash_final _

lemma startsWith_has_slash {l : List Char}
    (h : (startsWithList "http://".data l || startsWithList "https://".data l) = true) :
    '/' ∈ l := by
  rcases Bool.or_eq_true_iff.mp h with h1 | h1
  · obtain ⟨r, hr⟩ := List.isPrefixOf_iff_prefix.mp h1
    rw [← hr]
    exact List.mem_append_left r (by decide)
  · obtain ⟨r, hr⟩ := List.isPrefixOf_iff_prefix.mp h1
    rw [← hr]
    exact List.mem_append_left r (by decide)

lemma normalize_id_twice (s : String) :
    normalize_id (normalize_id s) = pyStrip (normalize_id s) := by
  by_cases hurl : (startsWithList "http://".data (stripList s.data) ||
      startsWithList "https://".data (stripList s.data)) = true
  · have hns : '/' ∉ (normalize_id s).data := normalize_id_url_no_slash hurl
    have hcond : (startsWithList "http://".data (stripList (normalize_id s).data) ||
        startsWithList "https://".data (stripList (normalize_id s).data)) = false := by
      cases hc : (startsWithList "http://".data (stripList (normalize_id s).data) ||
          startsWithList "https://".data (stripList (normalize_id s).data)) with
      | false => rfl
      | true => exact absurd (mem_stripList (startsWith_has_slash hc)) hns
    exact normalize_id_nonurl hcond
  · have h0 : (startsWithList "http://".data (stripList s.data) ||
        startsWithList "https://".data (stripList s.data)) = false := by
      revert hurl
      cases startsWithList "http://".data (stripList s.data) ||
        startsWithList "https://".data (stripList s.data) <;> simp
    rw [normalize_id_nonurl h0]
    have hdata : (pyStrip s).data = stripList s.data := rfl
    have hcond2 : (startsWithList "http://".data (stripList (pyStrip s).data) ||
        startsWithList "https://".data (stripList (pyStrip s).data)) = false := by
      rw [hdata, stripList_idem]
      exact h0
    rw [normalize_id_nonurl hcond2]

lemma normalize_id_of_url (host id q : String)
    (hid_slash : '/' ∉ id.data) (hid_q : '?' ∉ id.data)
    (hq_slash : '/' ∉ q.data) (hq_space : ∀ c ∈ q.data, is_py_space c = false) :
    normalize_id ("https://" ++ host ++ "/" ++ id ++ "?" ++ q) = id := by
  have hslashd : ("/" : String).data = ['/'] := rfl
  have hqd : ("?" : String).data = ['?'] := rfl
  have hdata : ("https://" ++ host ++ "/" ++ id ++ "?" ++ q).data =
      "https://".data ++ (host.data ++ '/' :: (id.data ++ '?' :: q.data)) := by
    simp [String.data_append, hslashd, hqd]
  have hdata2 : ("https://" ++ host ++ "/" ++ id ++ "?" ++ q).data =
      ("https://".data ++ host.data ++ '/' :: id.data) ++ '?' :: q.data := by
    simp [String.data_append, hslashd, hqd]
  have hlast : ∀ x, ("https://" ++ host ++ "/" ++ id ++ "?" ++ q).data.getLast? = some x →
      x = '?' ∨ x ∈ q.data := by
    intro x hx
    rw [hdata2, List.getLast?_append_of_ne_nil _ (by simp)] at hx
    cases hq : q.data with
    | nil =>
      rw [hq] at hx
      simp at hx
      exact Or.inl hx.symm
    | cons c cs =>
      rw [hq, List.getLast?_cons_cons] at hx
      exact Or.inr (mem_of_getLast?_eq hx)
  have hstrip : stripList ("https://" ++ host ++ "/" ++ id ++ "?" ++ q).data =
      ("https://" ++ host ++ "/" ++ id ++ "?" ++ q).data := by
    refine stripList_of_clean (fun c hc => ?_) (fun c hc => ?_)
    · rw [hdata, List.head?_append_of_ne_nil _ (by decide)] at hc
      have : c = 'h' := by simpa using hc.symm
      rw [this]
      decide
    · rcases hlast c hc with rfl | hmem
      · decide
      · exact hq_space c hmem
  have hcond : (startsWithList "http://".data
        (stripList ("https://" ++ host ++ "/" ++ id ++ "?" ++ q).data) ||
      startsWithList "https://".data
        (stripList ("https://" ++ host ++ "/" ++ id ++ "?" ++ q).data)) = true := by
    rw [hstrip]
    refine Bool.or_eq_true_iff.mpr (Or.inr ?_)
    rw [show startsWithList "https://".data
        ("https://" ++ host ++ "/" ++ id ++ "?" ++ q).data =
      "https://".data.isPrefixOf ("https://" ++ host ++ "/" ++ id ++ "?" ++ q).data
      from rfl]
    rw [List.isPrefixOf_iff_prefix]
    exact ⟨host.data ++ '/' :: (id.data ++ '?' :: q.data), hdata.symm⟩
  have hend : endsWithChar '/' ("https://" ++ host ++ "/" ++ id ++ "?" ++ q).data = false := by
    simp only [endsWithChar, decide_eq_false_iff_not]
    intro hsome
    rcases hlast '/' hsome with h | h
    · cases h
    · exact hq_slash h
  have hnoys : '/' ∉ id.data ++ '?' :: q.data := by
    intro h
    rcases List.mem_append.mp h with h1 | h1
    · exact hid_slash h1
    · rcases List.mem_cons.mp h1 with h2 | h2
      · cases h2
      · exact hq_slash h2
  have hseg : (splitOnChar '/' ("https://" ++ host ++ "/" ++ id ++ "?" ++ q).data).getLastD []
      = id.data ++ '?' :: q.data := by
    rw [hdata]
    rw [show "https://".data ++ (host.data ++ '/' :: (id.data ++ '?' :: q.data)) =
      ("https://".data ++ host.data) ++ '/' :: (id.data ++ '?' :: q.data) by
        simp [List.append_assoc]]
    rw [getLastD_splitOnChar_append '/' ("https://".data ++ host.data)
        (id.data ++ '?' :: q.data)]
    rw [splitOnChar_single hnoys]
    rfl
  have hcontains : (id.data ++ '?' :: q.data).contains '?' = true := by
    show (id.data ++ '?' :: q.data).elem '?' = true
    exact List.elem_eq_true_of_mem
      (List.mem_append_right _ (List.mem_cons_self '?' q.data))
  have hhead : (splitOnChar '?' (id.data ++ '?' :: q.data)).headD [] = id.data := by
    rw [splitOnChar_append_left '?' id.data q.data hid_q]
    rfl
  simp only [normalize_id, hcond, if_true, hstrip, hend, Bool.false_eq_true, if_false,
    hseg, hcontains, hhead]
  have hcond' : (startsWithList ['h', 't', 't', 'p', ':', '/', '/']
        ("https://" ++ host ++ "/" ++ id ++ "?" ++ q).data ||
      startsWithList ['h', 't', 't', 'p', 's', ':', '/', '/']
        ("https://" ++ host ++ "/" ++ id ++ "?" ++ q).data) = true := by
    rw [hstrip] at hcond
    exact hcond
  rw [hcond', if_pos rfl]

/-- C5 counterexample: `normalize` is not idempotent.  For the URL
`http://a/b ?q` the final path segment is `b ?q`; dropping the query
leaves `b ` with a trailing space, and a second normalisation strips that
space, giving a different string. -/
theorem C5_counterexample :
    normalize_id (normalize_id "http://a/b ?q") ≠ normalize_id "http://a/b ?q" := by
  decide

/-- C5 amended: `normalize` is a pure total function (it is a Lean
function here), but it is idempotent only up to a final whitespace strip:
a second application merely strips the first result
(`normalize ∘ normalize = strip ∘ normalize`), so idempotence holds from
the second application onwards
(`normalize (normalize (normalize x)) = normalize (normalize x)` for every
`x`) and fails exactly when the extracted URL segment carries leading or
trailing whitespace; applied to a URL ending in the ticket identifier
followed by a query string (the identifier segment containing no slash and
no question mark, the query containing no slash and no whitespace) it
yields the bare identifier. -/
theorem C5_normalize_idempotence :
    (∀ s : String, normalize_id (normalize_id s) = pyStrip (normalize_id s)) ∧
    (∀ s : String,
      normalize_id (normalize_id (normalize_id s)) = normalize_id (normalize_id s)) ∧
    (∀ host id q : String, '/' ∉ id.data → '?' ∉ id.data → '/' ∉ q.data →
      (∀ c ∈ q.data, is_py_space c = false) →
      normalize_id ("https://" ++ host ++ "/" ++ id ++ "?" ++ q) = id) := by
  refine ⟨normalize_id_twice, ?_, normalize_id_of_url⟩
  intro s
  have h1 := normalize_id_twice s
  have h2 := normalize_id_twice (normalize_id s)
  rw [h2, h1, pyStrip_idem]

/-- Witness for C5: scanning a full QR URL with a query string yields the
bare ticket identifier. -/
theorem C5_witness :
    normalize_id ("https://" ++ "x.com" ++ "/" ++ "TICKET-O1-L1-1" ++ "?" ++ "source=qr") =
      "TICKET-O1-L1-1" :=
  C5_normalize_idempotence.2.2 "x.com" "TICKET-O1-L1-1" "source=qr"
    (by decide) (by decide) (by decide) (by decide)

lemma mensajeYaUsado_ne (sku : String) : mensajeYaUsado sku ≠ mensajeModoPrueba := by
  intro h
  have hd := congrArg (fun s : String => s.data.head?) h
  simp only [mensajeYaUsado, mensajeModoPrueba, String.data_append] at hd
  rw [List.head?_append_of_ne_nil _
        (by intro hnil; exact absurd (List.append_eq_nil.mp hnil).1 (by decide)),
      List.head?_append_of_ne_nil _ (by decide)] at hd
  exact absurd hd (by decide)

lemma mensajePermitido_ne (sku : String) : mensajePermitido sku ≠ mensajeModoPrueba := by
  intro h
  have hd := congrArg (fun s : String => s.data.head?) h
  simp only [mensajePermitido, mensajeModoPrueba, String.data_append] at hd
  rw [List.head?_append_of_ne_nil _
        (by intro hnil; exact absurd (List.append_eq_nil.mp hnil).1 (by decide)),
      List.head?_append_of_ne_nil _ (by decide)] at hd
  exact absurd hd (by decide)

lemma not_TEST_of_TICKET {l : List Char}
    (h : startsWithList "TICKET-".data l = true) :
    startsWithList "TEST".data l = false := by
  cases hb : startsWithList "TEST".data l with
  | false => rfl
  | true =>
    exfalso
    have h1 := List.isPrefixOf_iff_prefix.mp h
    have h2 := List.isPrefixOf_iff_prefix.mp hb
    rcases List.prefix_or_prefix_of_prefix h1 h2 with h3 | h3
    · exact absurd h3 (by decide)
    · exact absurd h3 (by decide)

/-- C6 counterexample: the test-probe allowance is not isolated from real
ticket state.  A ticket whose identifier starts with `TEST` and which
exists in the store takes the normal redemption path: redeeming unused
`TESTX` mutates the store, and the probe's outcome depends on stored state
(simulated-valid against an empty store, "already used" when a used record
named `TESTX` exists) — so the short-circuit both consults and, for
existing probe identifiers, fails to protect the store from mutation. -/
theorem C6_counterexample :
    (verificar_ticket [⟨"TESTX", "SKU1", none, "O1", false⟩] "TESTX").1 ≠
      [⟨"TESTX", "SKU1", none, "O1", false⟩] ∧
    (verificar_ticket [] "TESTX").2 = ⟨true, mensajeModoPrueba⟩ ∧
    (verificar_ticket [⟨"TESTX", "SKU1", none, "O1", true⟩] "TESTX").2 =
      ⟨false, mensajeYaUsado "SKU1"⟩ := by
  decide

/-- C6 amended: the simulated-valid short-circuit fires only when the
store lookup finds no record for the normalised identifier — so it does
consult the store, but when it fires the store is returned unchanged; and
identifiers derived by real issuance (prefix `TICKET-`) can never receive
the simulated `MODO PRUEBA` outcome.  (A `TEST`-prefixed identifier that
does exist in the store follows the normal redemption path and may be
mutated, as the counterexample shows.) -/
theorem C6_test_probe :
    (∀ (store : List Ticket) (raw : String),
      findTicket store (normalize_id raw) = none →
      startsWithList "TEST".data (normalize_id raw).data = true →
      verificar_ticket store raw = (store, ⟨true, mensajeModoPrueba⟩)) ∧
    (∀ (store : List Ticket) (raw : String),
      startsWithList "TICKET-".data (normalize_id raw).data = true →
      (verificar_ticket store raw).2.mensaje ≠ mensajeModoPrueba) := by
  constructor
  · intro store raw hfind hTEST
    simp [verificar_ticket, hfind, hTEST]
  · intro store raw h
    have hT : startsWithList "TEST".data (normalize_id raw).data = false :=
      not_TEST_of_TICKET h
    unfold verificar_ticket
    dsimp only
    split
    · rw [hT]
      simp only [Bool.false_eq_true, if_false]
      exact fun hc => absurd hc (by decide)
    · split
      · exact mensajeYaUsado_ne _
      · split
        · exact mensajeYaUsado_ne _
        · exact mensajePermitido_ne _

/-- Witness for C6: a probe identifier absent from the store gets the
simulated outcome and the (empty) store is unchanged. -/
theorem C6_witness :
    verificar_ticket [] "TESTX" = ([], ⟨true, mensajeModoPrueba⟩) :=
  C6_test_probe.1 [] "TESTX" (by decide) (by decide)

end Tickets
